import Mathlib

set_option maxHeartbeats 1000000

namespace RecurringEvents

/-!
Shallow embedding of the recurring-events calendar core
(`src/pc/data/store.py`, `src/pc/frontend/utils.py`, `src/pc/shared_state_store.py`).

Dates model Python `datetime.date` values in the proleptic Gregorian calendar.
Python restricts years to 1..9999 (raising `OverflowError` outside); we model the
unbounded calendar, which agrees with Python on every representable date.
Python's `//` and `%` on integers are floor division and flooring remainder; for
the positive divisors appearing in the source these coincide with Lean's `Int`
`/` (`Int.ediv`) and `%` (`Int.emod`), which we use throughout.
-/

/-- Calendar date (year, month, day), modelling `datetime.date`. -/
structure Date where
  year : Int
  month : Int
  day : Int
deriving DecidableEq, Repr

/-- Gregorian leap-year test, modelling `calendar.isleap`:
`year % 4 == 0 and (year % 100 != 0 or year % 400 == 0)`. -/
def isleap (y : Int) : Bool :=
  y % 4 == 0 && (y % 100 != 0 || y % 400 == 0)

/-- Days in a month, modelling `calendar.monthrange(year, month)[1]` for months 1..12
(the `0` branch is unreachable in the source, which never calls it outside 1..12). -/
def daysInMonth (y m : Int) : Int :=
  if m = 1 then 31
  else if m = 2 then (if isleap y then 29 else 28)
  else if m = 3 then 31
  else if m = 4 then 30
  else if m = 5 then 31
  else if m = 6 then 30
  else if m = 7 then 31
  else if m = 8 then 31
  else if m = 9 then 30
  else if m = 10 then 31
  else if m = 11 then 30
  else if m = 12 then 31
  else 0

/-- Structural validity of a date, as enforced by the `datetime.date` constructor
(modulo Python's year bounds, see the module comment). -/
def Date.Valid (d : Date) : Prop :=
  1 ≤ d.month ∧ d.month ≤ 12 ∧ 1 ≤ d.day ∧ d.day ≤ daysInMonth d.year d.month

instance (d : Date) : Decidable d.Valid := by
  unfold Date.Valid; infer_instance

/-- Day number of a date (days since 1970-01-01), the quantity underlying
`datetime.date` subtraction and comparison.  Python's `date.toordinal` differs
from this count only by a fixed offset, so all date differences and order
comparisons agree exactly. -/
def toDays (dt : Date) : Int :=
  let y := if dt.month ≤ 2 then dt.year - 1 else dt.year
  let mp := if dt.month ≤ 2 then dt.month + 9 else dt.month - 3
  let era := y / 400
  let yoe := y - era * 400
  let doy := (153 * mp + 2) / 5 + dt.day - 1
  era * 146097 + yoe * 365 + yoe / 4 - yoe / 100 + doy - 719468

/-- Successor date: the calendar day after `dt`. -/
def nextDay (dt : Date) : Date :=
  if dt.day < daysInMonth dt.year dt.month then ⟨dt.year, dt.month, dt.day + 1⟩
  else if dt.month < 12 then ⟨dt.year, dt.month + 1, 1⟩
  else ⟨dt.year + 1, 1, 1⟩

/-- Predecessor date: the calendar day before `dt`. -/
def prevDay (dt : Date) : Date :=
  if 1 < dt.day then ⟨dt.year, dt.month, dt.day - 1⟩
  else if 1 < dt.month then ⟨dt.year, dt.month - 1, daysInMonth dt.year (dt.month - 1)⟩
  else ⟨dt.year - 1, 12, 31⟩

@[simp] theorem Date.year_mk (y m d : Int) : (Date.mk y m d).year = y := rfl

@[simp] theorem Date.month_mk (y m d : Int) : (Date.mk y m d).month = m := rfl

@[simp] theorem Date.day_mk (y m d : Int) : (Date.mk y m d).day = d := rfl

theorem daysInMonth_pos (y m : Int) (h1 : 1 ≤ m) (h2 : m ≤ 12) :
    1 ≤ daysInMonth y m := by
  unfold daysInMonth
  split_ifs <;> omega

theorem valid_mk (y m d : Int) :
    (Date.mk y m d).Valid ↔ (1 ≤ m ∧ m ≤ 12 ∧ 1 ≤ d ∧ d ≤ daysInMonth y m) := by
  unfold Date.Valid
  simp

theorem nextDay_valid (dt : Date) (h : dt.Valid) : (nextDay dt).Valid := by
  obtain ⟨y, m, d⟩ := dt
  rw [valid_mk] at h
  obtain ⟨h1, h2, h3, h4⟩ := h
  unfold nextDay
  simp only [Date.year_mk, Date.month_mk, Date.day_mk]
  split_ifs with hd hm
  · rw [valid_mk]
    exact ⟨h1, h2, by omega, by omega⟩
  · rw [valid_mk]
    exact ⟨by omega, by omega, by omega, daysInMonth_pos y (m + 1) (by omega) (by omega)⟩
  · rw [valid_mk]
    refine ⟨by omega, by omega, by omega, ?_⟩
    norm_num [daysInMonth]

theorem prevDay_valid (dt : Date) (h : dt.Valid) : (prevDay dt).Valid := by
  obtain ⟨y, m, d⟩ := dt
  rw [valid_mk] at h
  obtain ⟨h1, h2, h3, h4⟩ := h
  unfold prevDay
  simp only [Date.year_mk, Date.month_mk, Date.day_mk]
  split_ifs with hd hm
  · rw [valid_mk]
    exact ⟨h1, h2, by omega, by omega⟩
  · rw [valid_mk]
    exact ⟨by omega, by omega,
      daysInMonth_pos y (m - 1) (by omega) (by omega), by omega⟩
  · rw [valid_mk]
    refine ⟨by omega, by omega, by omega, ?_⟩
    norm_num [daysInMonth]

theorem nextDay_prevDay (dt : Date) (h : dt.Valid) : nextDay (prevDay dt) = dt := by
  obtain ⟨y, m, d⟩ := dt
  rw [valid_mk] at h
  obtain ⟨h1, h2, h3, h4⟩ := h
  unfold prevDay
  simp only [Date.year_mk, Date.month_mk, Date.day_mk]
  split_ifs with hd hm
  · unfold nextDay
    simp only [Date.year_mk, Date.month_mk, Date.day_mk]
    split_ifs <;> simp only [Date.mk.injEq, true_and, and_true] <;> omega
  · unfold nextDay
    simp only [Date.year_mk, Date.month_mk, Date.day_mk]
    split_ifs <;> simp only [Date.mk.injEq, true_and, and_true] <;> omega
  · unfold nextDay
    simp only [Date.year_mk, Date.month_mk, Date.day_mk]
    have h31 : daysInMonth (y - 1) 12 = 31 := by norm_num [daysInMonth]
    rw [h31]
    norm_num
    omega

theorem isleap_iff (y : Int) :
    isleap y = true ↔ (y % 4 = 0 ∧ (y % 100 ≠ 0 ∨ y % 400 = 0)) := by
  simp [isleap]

theorem toDays_nextDay (dt : Date) (h : dt.Valid) : toDays (nextDay dt) = toDays dt + 1 := by
  obtain ⟨y, m, d⟩ := dt
  rw [valid_mk] at h
  obtain ⟨h1, h2, h3, h4⟩ := h
  unfold nextDay
  simp only [Date.year_mk, Date.month_mk, Date.day_mk]
  split_ifs with hd hm
  · -- middle of a month: toDays is linear in the day for a fixed month
    unfold toDays
    simp only [Date.year_mk, Date.month_mk, Date.day_mk]
    split_ifs <;> omega
  · -- last day of a month other than December
    cases hL : isleap y with
    | false =>
      have hLf : ¬ (y % 4 = 0 ∧ (y % 100 ≠ 0 ∨ y % 400 = 0)) := by
        rw [← isleap_iff, hL]; simp
      interval_cases m <;>
        norm_num [daysInMonth, hL] at hd h4 <;>
        norm_num [toDays] <;>
        omega
    | true =>
      have hLt : y % 4 = 0 ∧ (y % 100 ≠ 0 ∨ y % 400 = 0) := (isleap_iff y).mp hL
      interval_cases m <;>
        norm_num [daysInMonth, hL] at hd h4 <;>
        norm_num [toDays] <;>
        omega
  · -- December 31st
    have hm12 : m = 12 := by omega
    subst hm12
    have h31 : daysInMonth y 12 = 31 := by norm_num [daysInMonth]
    rw [h31] at hd h4
    have hd31 : d = 31 := by omega
    subst hd31
    norm_num [toDays]
    omega

theorem toDays_prevDay (dt : Date) (h : dt.Valid) : toDays (prevDay dt) = toDays dt - 1 := by
  have hv := prevDay_valid dt h
  have hn := toDays_nextDay (prevDay dt) hv
  rw [nextDay_prevDay dt h] at hn
  omega

/-- Shift a date by an integer number of days.  This models Python's
`date + timedelta(days=n)`: `timedelta` addition acts on the day number
(`toordinal`), which is exactly iterated succession/predecession of calendar
days; `toDays_addDays` below certifies the correspondence. -/
def addDays (dt : Date) (n : Int) : Date :=
  match n with
  | .ofNat k => nextDay^[k] dt
  | .negSucc k => prevDay^[k + 1] dt

theorem nextDay_iter_valid (k : Nat) (dt : Date) (h : dt.Valid) :
    (nextDay^[k] dt).Valid := by
  induction k generalizing dt with
  | zero => simpa using h
  | succ n ih =>
    rw [Function.iterate_succ_apply]
    exact ih _ (nextDay_valid dt h)

theorem prevDay_iter_valid (k : Nat) (dt : Date) (h : dt.Valid) :
    (prevDay^[k] dt).Valid := by
  induction k generalizing dt with
  | zero => simpa using h
  | succ n ih =>
    rw [Function.iterate_succ_apply]
    exact ih _ (prevDay_valid dt h)

theorem toDays_nextDay_iter (k : Nat) (dt : Date) (h : dt.Valid) :
    toDays (nextDay^[k] dt) = toDays dt + k := by
  induction k generalizing dt with
  | zero => simp
  | succ n ih =>
    rw [Function.iterate_succ_apply]
    rw [ih _ (nextDay_valid dt h), toDays_nextDay dt h]
    omega

theorem toDays_prevDay_iter (k : Nat) (dt : Date) (h : dt.Valid) :
    toDays (prevDay^[k] dt) = toDays dt - k := by
  induction k generalizing dt with
  | zero => simp
  | succ n ih =>
    rw [Function.iterate_succ_apply]
    rw [ih _ (prevDay_valid dt h), toDays_prevDay dt h]
    omega

/-- `addDays` shifts the day number by exactly `n`: the defining law of
`timedelta(days=n)` addition. -/
theorem toDays_addDays (dt : Date) (n : Int) (h : dt.Valid) :
    toDays (addDays dt n) = toDays dt + n := by
  unfold addDays
  cases n with
  | ofNat k => rw [toDays_nextDay_iter k dt h]; simp
  | negSucc k => rw [toDays_prevDay_iter (k + 1) dt h]; simp [Int.negSucc_eq]; omega

theorem addDays_valid (dt : Date) (n : Int) (h : dt.Valid) : (addDays dt n).Valid := by
  unfold addDays
  cases n with
  | ofNat k => exact nextDay_iter_valid k dt h
  | negSucc k => exact prevDay_iter_valid (k + 1) dt h

/-- Models `store._add_months` (`src/pc/data/store.py` lines 120-127):
Python's `month // 12` and `month % 12` are floor division / flooring remainder,
which for the positive divisor 12 coincide with Lean's `Int` `/` and `%`. -/
def add_months (base : Date) (months : Int) : Date :=
  if months = 0 then base
  else
    let month := base.month - 1 + months
    let year := base.year + month / 12
    let month2 := month % 12 + 1
    let day := min base.day (daysInMonth year month2)
    ⟨year, month2, day⟩

/-- Models `store._add_years` (`src/pc/data/store.py` lines 130-134):
`base.replace(year=base.year + years)` raises `ValueError` exactly when the
resulting date is invalid, in which case the source falls back to February 28
of the target year. -/
def add_years (base : Date) (years : Int) : Date :=
  let cand : Date := ⟨base.year + years, base.month, base.day⟩
  if cand.Valid then cand else ⟨base.year + years, 2, 28⟩

/-- The frequency-unit whitelist `store.FREQUENCY_UNITS`. -/
def FREQUENCY_UNITS : List String := ["days", "weeks", "months", "years"]

/-- Models `store.add_frequency` (`src/pc/data/store.py` lines 137-146).
`none` models the `ValueError("Unsupported frequency unit: ...")` raise;
`timedelta(weeks=value)` is `timedelta(days=7*value)`. -/
def add_frequency (base : Date) (value : Int) (unit : String) : Option Date :=
  if unit = "days" then some (addDays base value)
  else if unit = "weeks" then some (addDays base (7 * value))
  else if unit = "months" then some (add_months base value)
  else if unit = "years" then some (add_years base value)
  else none

theorem add_frequency_isSome (base : Date) (value : Int) (unit : String)
    (hu : unit ∈ FREQUENCY_UNITS) : ∃ r, add_frequency base value unit = some r := by
  simp only [FREQUENCY_UNITS, List.mem_cons, List.not_mem_nil, or_false] at hu
  unfold add_frequency
  rcases hu with h | h | h | h <;> rw [h] <;> exact ⟨_, rfl⟩

theorem daysInMonth_two (y : Int) : daysInMonth y 2 = if isleap y then 29 else 28 := by
  norm_num [daysInMonth]

theorem daysInMonth_ne_two (y y' m : Int) (hm : m ≠ 2) :
    daysInMonth y m = daysInMonth y' m := by
  unfold daysInMonth
  split_ifs <;> omega

/-- C3: `addCadence` with unit `"months"` adds `value` months, preserving the
day-of-month when the target month has enough days and otherwise clamping to the
last day of the target month; with `"years"` it adds `value` years preserving
month and day except that Feb 29 mapped into a non-leap year falls back to
Feb 28; with `"days"` it adds `value` days and with `"weeks"` it adds
`7 * value` days (as day-number shifts).  Holds for negative values as well. -/
theorem claim_C3 (base : Date) (v : Int) (hb : base.Valid) :
    (∃ r, add_frequency base v "months" = some r ∧
       r.year = base.year + (base.month - 1 + v) / 12 ∧
       r.month = (base.month - 1 + v) % 12 + 1 ∧
       (base.day ≤ daysInMonth r.year r.month → r.day = base.day) ∧
       (daysInMonth r.year r.month < base.day → r.day = daysInMonth r.year r.month)) ∧
    (∃ r, add_frequency base v "years" = some r ∧
       r.year = base.year + v ∧
       (¬ (base.month = 2 ∧ base.day = 29 ∧ isleap (base.year + v) = false) →
          r.month = base.month ∧ r.day = base.day) ∧
       ((base.month = 2 ∧ base.day = 29 ∧ isleap (base.year + v) = false) →
          r.month = 2 ∧ r.day = 28)) ∧
    (∃ r, add_frequency base v "days" = some r ∧ toDays r = toDays base + v) ∧
    (∃ r, add_frequency base v "weeks" = some r ∧ toDays r = toDays base + 7 * v) := by
  obtain ⟨y, m, d⟩ := base
  have hbv := hb
  rw [valid_mk] at hbv
  obtain ⟨h1, h2, h3, h4⟩ := hbv
  refine ⟨⟨add_months ⟨y, m, d⟩ v, rfl, ?_⟩, ⟨add_years ⟨y, m, d⟩ v, rfl, ?_⟩,
    ⟨addDays ⟨y, m, d⟩ v, rfl, toDays_addDays _ v hb⟩,
    ⟨addDays ⟨y, m, d⟩ (7 * v), rfl, toDays_addDays _ (7 * v) hb⟩⟩
  · -- months
    by_cases hv : v = 0
    · subst hv
      simp only [add_months, reduceIte, Date.year_mk, Date.month_mk, Date.day_mk]
      refine ⟨by omega, by omega, fun _ => by trivial, fun hlt => by omega⟩
    · simp only [add_months, if_neg hv, Date.year_mk, Date.month_mk, Date.day_mk]
      refine ⟨by trivial, by trivial, fun hle => ?_, fun hlt => ?_⟩ <;>
        (rw [Int.min_def]; split_ifs <;> omega)
  · -- years
    simp only [add_years]
    split_ifs with hc
    · -- replace(year=...) succeeded
      simp only [Date.year_mk, Date.month_mk, Date.day_mk]
      refine ⟨by trivial, fun _ => ⟨by trivial, by trivial⟩, fun hno => ?_⟩
      obtain ⟨hm2, hd29, hL⟩ := hno
      rw [valid_mk] at hc
      obtain ⟨-, -, -, hc4⟩ := hc
      subst hm2
      subst hd29
      norm_num [daysInMonth, hL] at hc4
    · -- invalid target date: the source falls back to Feb 28
      simp only [Date.year_mk, Date.month_mk, Date.day_mk]
      rw [valid_mk] at hc
      refine ⟨by trivial, fun hno => ?_, fun _ => ⟨by trivial, by trivial⟩⟩
      exfalso
      by_cases hm2 : m = 2
      · subst hm2
        cases hL2 : isleap (y + v) with
        | false =>
          have hdim : daysInMonth y 2 ≤ 29 := by
            rw [daysInMonth_two]
            split_ifs <;> omega
          have hdim2 : daysInMonth (y + v) 2 = 28 := by rw [daysInMonth_two, hL2]; rfl
          rw [hdim2] at hc
          exact hno ⟨rfl, by omega, hL2⟩
        | true =>
          have hdim : daysInMonth y 2 ≤ 29 := by
            rw [daysInMonth_two]
            split_ifs <;> omega
          have hdim2 : daysInMonth (y + v) 2 = 29 := by rw [daysInMonth_two, hL2]; rfl
          rw [hdim2] at hc
          omega
      · rw [daysInMonth_ne_two (y + v) y m hm2] at hc
        omega

/-- Concrete date used by witnesses. -/
def dJan31 : Date := ⟨2024, 1, 31⟩

theorem claim_C3_witness :
    (∃ r, add_frequency dJan31 1 "months" = some r ∧
       r.year = dJan31.year + (dJan31.month - 1 + 1) / 12 ∧
       r.month = (dJan31.month - 1 + 1) % 12 + 1 ∧
       (dJan31.day ≤ daysInMonth r.year r.month → r.day = dJan31.day) ∧
       (daysInMonth r.year r.month < dJan31.day → r.day = daysInMonth r.year r.month)) ∧
    (∃ r, add_frequency dJan31 1 "years" = some r ∧
       r.year = dJan31.year + 1 ∧
       (¬ (dJan31.month = 2 ∧ dJan31.day = 29 ∧ isleap (dJan31.year + 1) = false) →
          r.month = dJan31.month ∧ r.day = dJan31.day) ∧
       ((dJan31.month = 2 ∧ dJan31.day = 29 ∧ isleap (dJan31.year + 1) = false) →
          r.month = 2 ∧ r.day = 28)) ∧
    (∃ r, add_frequency dJan31 1 "days" = some r ∧ toDays r = toDays dJan31 + 1) ∧
    (∃ r, add_frequency dJan31 1 "weeks" = some r ∧ toDays r = toDays dJan31 + 7 * 1) :=
  claim_C3 dJan31 1 (by decide)

/-- Code-point lexicographic strict order on character lists, modelling Python's
and SQLite's string comparison (both compare code points left to right). -/
def chars_lt : List Char → List Char → Bool
  | [], [] => false
  | [], _ :: _ => true
  | _ :: _, [] => false
  | a :: as, b :: bs => if a < b then true else if b < a then false else chars_lt as bs

/-- Code-point lexicographic non-strict order on character lists. -/
def chars_le : List Char → List Char → Bool
  | [], _ => true
  | _ :: _, [] => false
  | a :: as, b :: bs => if a < b then true else if b < a then false else chars_le as bs

/-- Python / SQLite string `<`. -/
def str_lt (a b : String) : Bool := chars_lt a.data b.data

/-- Python / SQLite string `<=`. -/
def str_le (a b : String) : Bool := chars_le a.data b.data

/-- The single replicated row of `shared_state` (`value`, `updated_at` in epoch
milliseconds, `source_id`). -/
structure LWWState where
  value : Int
  updated_at : Int
  source_id : String
deriving DecidableEq, Repr

@[simp] theorem LWWState.value_mk (v t : Int) (s : String) :
    (LWWState.mk v t s).value = v := rfl

@[simp] theorem LWWState.updated_at_mk (v t : Int) (s : String) :
    (LWWState.mk v t s).updated_at = t := rfl

@[simp] theorem LWWState.source_id_mk (v t : Int) (s : String) :
    (LWWState.mk v t s).source_id = s := rfl

/-- Models `shared_state_store._should_replace` (lines 62-69): strictly newer
timestamp wins; strictly older loses; equal timestamps fall back to a
lexicographic comparison of source ids (`incoming[2] > current[2]`). -/
def should_replace (incoming current : LWWState) : Bool :=
  if incoming.updated_at > current.updated_at then true
  else if incoming.updated_at < current.updated_at then false
  else str_lt current.source_id incoming.source_id

/-- Models `shared_state_store.apply_lww_update` (lines 72-97): the stored
singleton state is replaced by the incoming triple exactly when
`_should_replace` says so, and the persisted state is returned.  The function
is total: no input (including negative timestamps) can make it fail. -/
def apply_lww_update (value : Int) (updated_at : Int) (source_id : String)
    (current : LWWState) : LWWState :=
  let incoming : LWWState := ⟨value, updated_at, source_id⟩
  if should_replace incoming current then incoming else current

/-- Models `shared_state_store.apply_local_update` (lines 100-107): stamp the
update with the current wall-clock time (`now`, a parameter of the model) and
delegate to `apply_lww_update`. -/
def apply_local_update (value : Int) (source_id : String) (now : Int)
    (current : LWWState) : LWWState :=
  apply_lww_update value now source_id current

theorem apply_lww_update_eq (current : LWWState) (v t : Int) (s : String) :
    apply_lww_update v t s current =
      if t > current.updated_at then ⟨v, t, s⟩
      else if t < current.updated_at then current
      else if str_lt current.source_id s then ⟨v, t, s⟩ else current := by
  unfold apply_lww_update should_replace
  simp only [LWWState.value_mk, LWWState.updated_at_mk, LWWState.source_id_mk]
  split_ifs <;> simp_all

/-- C2: `apply` replaces the stored state iff the incoming `updated_at` is
strictly greater, or equal with a lexicographically greater `source_id`;
otherwise the returned state equals the prior state.  The model is a total
function of an arbitrary integer timestamp (negative included), so no input
errors. -/
theorem claim_C2 (current : LWWState) (v t : Int) (s : String) :
    (t > current.updated_at ∨ (t = current.updated_at ∧ str_lt current.source_id s = true) →
       apply_lww_update v t s current = ⟨v, t, s⟩) ∧
    (t < current.updated_at ∨ (t = current.updated_at ∧ str_lt current.source_id s = false) →
       apply_lww_update v t s current = current) := by
  rw [apply_lww_update_eq]
  constructor
  · rintro (h | ⟨h1, h2⟩)
    · rw [if_pos h]
    · rw [if_neg (by omega), if_neg (by omega), if_pos h2]
  · rintro (h | ⟨h1, h2⟩)
    · rw [if_neg (by omega), if_pos h]
    · rw [if_neg (by omega), if_neg (by omega), if_neg (by simp [h2])]

theorem claim_C2_witness : apply_lww_update 7 5 "b" ⟨1, 3, "a"⟩ = ⟨7, 5, "b"⟩ :=
  (claim_C2 ⟨1, 3, "a"⟩ 7 5 "b").1 (Or.inl (by decide))

/-- C5 counterexample: a stored state whose `updated_at` equals `now` is "not
from the future" in the claim's sense, yet a local update with a
lexicographically smaller `source_id` does NOT win: the old value 0 is kept,
not the new value 5. -/
theorem claim_C5_counterexample :
    ¬ ((100 : Int) < 100) ∧
    apply_local_update 5 "a" 100 ⟨0, 100, "b"⟩ = ⟨0, 100, "b"⟩ ∧
    (0 : Int) ≠ 5 := by
  refine ⟨by omega, ?_, by omega⟩
  rw [apply_local_update, apply_lww_update_eq]
  norm_num
  decide

/-- C5 (amended): `applyLocal` stamps `updated_at = now` and delegates to
`apply`; it unconditionally wins over any stored state whose `updated_at` is
strictly less than `now`; when the stored `updated_at` equals `now` it wins
exactly when the incoming `source_id` is lexicographically greater than the
stored one. -/
theorem claim_C5 (current : LWWState) (v : Int) (src : String) (now : Int) :
    apply_local_update v src now current = apply_lww_update v now src current ∧
    (current.updated_at < now → apply_local_update v src now current = ⟨v, now, src⟩) ∧
    (current.updated_at = now → str_lt current.source_id src = true →
       apply_local_update v src now current = ⟨v, now, src⟩) ∧
    (current.updated_at = now → str_lt current.source_id src = false →
       apply_local_update v src now current = current) := by
  refine ⟨rfl, ?_, ?_, ?_⟩ <;>
    (intro h
     first
       | (rw [apply_local_update, apply_lww_update_eq, if_pos (by omega)])
       | (intro h2
          rw [apply_local_update, apply_lww_update_eq, if_neg (by omega), if_neg (by omega)]
          first
            | rw [if_pos h2]
            | rw [if_neg (by simp [h2])]))

theorem claim_C5_witness : apply_local_update 9 "b" 5 ⟨1, 0, "a"⟩ = ⟨9, 5, "b"⟩ :=
  (claim_C5 ⟨1, 0, "a"⟩ 9 "b" 5).2.1 (by decide)

/-- Python `date` strict comparison: CPython orders dates by their day number
(`date.__lt__` agrees with `toordinal` order). -/
def Date.lt (a b : Date) : Prop := toDays a < toDays b

/-- Python `date` non-strict comparison. -/
def Date.le (a b : Date) : Prop := toDays a ≤ toDays b

instance (a b : Date) : Decidable (Date.lt a b) :=
  inferInstanceAs (Decidable (toDays a < toDays b))

instance (a b : Date) : Decidable (Date.le a b) :=
  inferInstanceAs (Decidable (toDays a ≤ toDays b))

/-- A row of the `events` table (`data/models.py:EventRecord`).  The
`created_at`/`updated_at` timestamps written by `store._utcnow` are modelled as
abstract integer clock ticks supplied by the caller of each operation. -/
structure EventRecord where
  id : Int
  name : String
  tag : Option String
  details : Option String
  frequency_value : Int
  frequency_unit : String
  due_date : Date
  last_done : Option Date
  created_at : Int
  updated_at : Int
deriving DecidableEq, Repr

/-- A row of the `event_history` table (`data/models.py:HistoryRecord`). -/
structure HistoryRecord where
  id : Int
  event_id : Int
  action : String
  action_date : Date
  note : Option String
deriving DecidableEq, Repr

/-- The SQLite database state of `store.py`: the two tables plus the
autoincrement counters for their integer primary keys. -/
structure Store where
  events : List EventRecord
  history : List HistoryRecord
  nextEventId : Int
  nextHistoryId : Int
deriving DecidableEq, Repr

/-- Error outcomes of store operations.  `notFound` and `invalidUnit` model the
two distinct `ValueError` raise sites ("Event ... does not exist" and
"Frequency unit must be one of ..."); `internalError` models the
`RuntimeError("Failed to ...")` raised when a re-fetch after a write finds
nothing. -/
inductive StoreError where
  | notFound
  | invalidUnit
  | internalError
deriving DecidableEq, Repr

/-- Models `store.get_event` (lines 162-173): look up the row with the given
primary key (`id` is the primary key, so the first match is the row). -/
def get_event (event_id : Int) (s : Store) : Option EventRecord :=
  s.events.find? (fun e => e.id == event_id)

/-- Normalisation applied by `create_event` to the optional text fields:
`tag.strip() if tag and tag.strip() else None` (`String.trim` models Python's
`str.strip`, which removes leading and trailing whitespace). -/
def clean_text (x : Option String) : Option String :=
  match x with
  | none => none
  | some t => if t.trim = "" then none else some t.trim

/-- Models `store.create_event` (lines 176-214): validate the frequency unit,
insert the trimmed row with `last_done = NULL` and `created_at = updated_at =
now`, then re-fetch it by its new primary key. -/
def create_event (name : String) (tag details : Option String) (due_date : Date)
    (frequency_value : Int) (frequency_unit : String) (now : Int) (s : Store) :
    Except StoreError (Store × EventRecord) :=
  if frequency_unit ∈ FREQUENCY_UNITS then
    let r : EventRecord :=
      { id := s.nextEventId, name := name.trim, tag := clean_text tag,
        details := clean_text details, frequency_value := frequency_value,
        frequency_unit := frequency_unit, due_date := due_date, last_done := none,
        created_at := now, updated_at := now }
    let s' : Store := { s with events := s.events ++ [r], nextEventId := s.nextEventId + 1 }
    match get_event s.nextEventId s' with
    | some r2 => .ok (s', r2)
    | none => .error .internalError
  else .error .invalidUnit

/-- The per-row effect of the `UPDATE events SET ...` statement built by
`store.update_event`: each supplied field overwrites the stored one (text
fields trimmed, empty-after-trim `tag`/`details` cleared to NULL), and
`updated_at` is set to `now`; omitted (`None`) fields keep the stored value. -/
def apply_update_fields (name tag details : Option String)
    (due_date : Option Date) (frequency_value : Option Int)
    (frequency_unit : Option String) (last_done : Option Date) (now : Int)
    (e : EventRecord) : EventRecord :=
  { e with
    name := (match name with | some n => n.trim | none => e.name),
    tag := (match tag with | some t => (if t.trim = "" then none else some t.trim) | none => e.tag),
    details := (match details with | some t => (if t.trim = "" then none else some t.trim) | none => e.details),
    due_date := due_date.getD e.due_date,
    frequency_value := frequency_value.getD e.frequency_value,
    frequency_unit := frequency_unit.getD e.frequency_unit,
    last_done := (match last_done with | some d => some d | none => e.last_done),
    updated_at := now }

/-- The frequency-unit validation performed inside `update_event`'s field
loop: true exactly when a unit is supplied and lies outside the whitelist. -/
def bad_unit (fu : Option String) : Bool :=
  match fu with
  | some u => decide (u ∉ FREQUENCY_UNITS)
  | none => false

/-- Models `store.update_event` (lines 217-273): fail with `notFound` for a
missing id; fail with `invalidUnit` when a frequency unit is supplied and is
outside the whitelist (before anything is written); return the stored record
unchanged when no field is supplied (`if not fields: return record`, without
bumping `updated_at`); otherwise apply the supplied fields plus `updated_at`
and re-fetch the row. -/
def update_event (event_id : Int) (name tag details : Option String)
    (due_date : Option Date) (frequency_value : Option Int)
    (frequency_unit : Option String) (last_done : Option Date) (now : Int)
    (s : Store) : Except StoreError (Store × EventRecord) :=
  match get_event event_id s with
  | none => .error .notFound
  | some record =>
    if bad_unit frequency_unit then .error .invalidUnit
    else if name = none ∧ tag = none ∧ details = none ∧ due_date = none ∧
        frequency_value = none ∧ frequency_unit = none ∧ last_done = none then
      .ok (s, record)
    else
      let s' : Store :=
        { s with events := s.events.map fun e =>
            if e.id == event_id then
              (apply_update_fields name tag details due_date frequency_value
                frequency_unit last_done now e)
            else e }
      match get_event event_id s' with
      | some r => .ok (s', r)
      | none => .error .internalError

/-- The per-row effect of `mark_event_done`'s `UPDATE events SET last_done = ?,
due_date = ?, updated_at = ? WHERE id = ?`. -/
def mark_fields (done : Date) (new_due : Date) (now : Int) (e : EventRecord) :
    EventRecord :=
  { e with last_done := some done, due_date := new_due, updated_at := now }

/-- Models `store.mark_event_done` (lines 317-354): `done` defaults to today;
the new due date is the cadence added to `done` (not to the old due date); the
row is updated (`last_done`, `due_date`, `updated_at`), one `'done'` history
row with `action_date = done` is inserted, and the row is re-fetched. -/
def mark_event_done (event_id : Int) (done_date : Option Date) (today : Date)
    (now : Int) (s : Store) : Except StoreError (Store × EventRecord) :=
  match get_event event_id s with
  | none => .error .notFound
  | some event =>
    let done := done_date.getD today
    match add_frequency done event.frequency_value event.frequency_unit with
    | none => .error .invalidUnit
    | some new_due =>
      let s' : Store :=
        { s with
          events := s.events.map fun e =>
            if e.id == event_id then mark_fields done new_due now e else e,
          history := s.history ++ [⟨s.nextHistoryId, event_id, "done", done, none⟩],
          nextHistoryId := s.nextHistoryId + 1 }
      match get_event event_id s' with
      | some r => .ok (s', r)
      | none => .error .internalError

theorem find?_map_ite {α : Type} (p : α → Bool) (f : α → α)
    (hf : ∀ x, p x = true → p (f x) = true) :
    ∀ (l : List α) (a : α), l.find? p = some a →
      (l.map fun x => if p x then f x else x).find? p = some (f a) := by
  intro l
  induction l with
  | nil => intro a h; simp at h
  | cons x xs ih =>
    intro a h
    simp only [List.map_cons]
    cases hx : p x with
    | true =>
      rw [List.find?_cons_of_pos _ hx] at h
      injection h with h
      subst h
      simp only [hx, reduceIte]
      rw [List.find?_cons_of_pos _ (hf x hx)]
    | false =>
      rw [List.find?_cons_of_neg _ (by simp [hx])] at h
      rw [List.find?_cons_of_neg _ (by simp [hx])]
      exact ih a h

theorem mark_event_done_eq (s : Store) (event_id : Int) (ev : EventRecord)
    (done_date : Option Date) (today : Date) (now : Int) (nd : Date)
    (hev : get_event event_id s = some ev)
    (hnd : add_frequency (done_date.getD today) ev.frequency_value
      ev.frequency_unit = some nd) :
    mark_event_done event_id done_date today now s =
      .ok ({ s with
          events := s.events.map fun e =>
            if e.id == event_id then mark_fields (done_date.getD today) nd now e
            else e,
          history := s.history ++
            [⟨s.nextHistoryId, event_id, "done", done_date.getD today, none⟩],
          nextHistoryId := s.nextHistoryId + 1 },
        mark_fields (done_date.getD today) nd now ev) := by
  have hget := find?_map_ite (fun e : EventRecord => e.id == event_id)
    (mark_fields (done_date.getD today) nd now) (fun x hx => hx) s.events ev hev
  unfold mark_event_done
  rw [hev]
  simp only []
  rw [hnd]
  simp only [get_event]
  rw [hget]

/-- C1: for every existing event and completion date (defaulting to `today`
when omitted), `markDone` sets the new due date to
`addCadence(doneDate, frequency_value, frequency_unit)` — a function of the
completion date only, not of the previous due date — sets
`last_done = doneDate`, bumps `updated_at` to the current clock tick, leaves
all other fields unchanged, and appends exactly one history row with action
`"done"` and `action_date = doneDate`. -/
theorem claim_C1 (s : Store) (event_id : Int) (ev : EventRecord)
    (done_date : Option Date) (today : Date) (now : Int)
    (hev : get_event event_id s = some ev)
    (hu : ev.frequency_unit ∈ FREQUENCY_UNITS) :
    ∃ s' r new_due,
      mark_event_done event_id done_date today now s = .ok (s', r) ∧
      add_frequency (done_date.getD today) ev.frequency_value ev.frequency_unit
        = some new_due ∧
      r.due_date = new_due ∧
      r.last_done = some (done_date.getD today) ∧
      r.updated_at = now ∧
      r.id = ev.id ∧ r.name = ev.name ∧ r.tag = ev.tag ∧ r.details = ev.details ∧
      r.frequency_value = ev.frequency_value ∧
      r.frequency_unit = ev.frequency_unit ∧
      r.created_at = ev.created_at ∧
      get_event event_id s' = some r ∧
      s'.history = s.history ++
        [⟨s.nextHistoryId, event_id, "done", done_date.getD today, none⟩] := by
  obtain ⟨nd, hnd⟩ :=
    add_frequency_isSome (done_date.getD today) ev.frequency_value ev.frequency_unit hu
  have hget := find?_map_ite (fun e : EventRecord => e.id == event_id)
    (mark_fields (done_date.getD today) nd now) (fun x hx => hx) s.events ev hev
  refine ⟨_, _, nd, mark_event_done_eq s event_id ev done_date today now nd hev hnd,
    hnd, rfl, rfl, rfl, rfl, rfl, rfl, rfl, rfl, rfl, rfl, hget, rfl⟩

/-- Concrete event used by witnesses. -/
def ev0 : EventRecord :=
  { id := 1, name := "laundry", tag := none, details := none,
    frequency_value := 3, frequency_unit := "days", due_date := ⟨2024, 5, 10⟩,
    last_done := none, created_at := 0, updated_at := 0 }

/-- Concrete one-event store used by witnesses. -/
def store0 : Store :=
  { events := [ev0], history := [], nextEventId := 2, nextHistoryId := 1 }

theorem claim_C1_witness :
    ∃ s' r new_due,
      mark_event_done 1 none ⟨2024, 5, 1⟩ 7 store0 = .ok (s', r) ∧
      add_frequency ((none : Option Date).getD ⟨2024, 5, 1⟩) ev0.frequency_value
        ev0.frequency_unit = some new_due ∧
      r.due_date = new_due ∧
      r.last_done = some ((none : Option Date).getD ⟨2024, 5, 1⟩) ∧
      r.updated_at = 7 ∧
      r.id = ev0.id ∧ r.name = ev0.name ∧ r.tag = ev0.tag ∧ r.details = ev0.details ∧
      r.frequency_value = ev0.frequency_value ∧
      r.frequency_unit = ev0.frequency_unit ∧
      r.created_at = ev0.created_at ∧
      get_event 1 s' = some r ∧
      s'.history = store0.history ++
        [⟨store0.nextHistoryId, 1, "done", (none : Option Date).getD ⟨2024, 5, 1⟩, none⟩] :=
  claim_C1 store0 1 ev0 none ⟨2024, 5, 1⟩ 7 (by decide) (by decide)

theorem update_event_some_eq (s : Store) (event_id : Int) (old : EventRecord)
    (name tag details : Option String) (due_date : Option Date)
    (frequency_value : Option Int) (frequency_unit : Option String)
    (last_done : Option Date) (now : Int)
    (hold : get_event event_id s = some old)
    (hfu : bad_unit frequency_unit = false)
    (hsome : ¬ (name = none ∧ tag = none ∧ details = none ∧ due_date = none ∧
      frequency_value = none ∧ frequency_unit = none ∧ last_done = none)) :
    update_event event_id name tag details due_date frequency_value
        frequency_unit last_done now s =
      .ok ({ s with events := s.events.map fun e =>
          if e.id == event_id then
            (apply_update_fields name tag details due_date frequency_value
              frequency_unit last_done now e)
          else e },
        apply_update_fields name tag details due_date frequency_value
          frequency_unit last_done now old) := by
  have hget := find?_map_ite (fun e : EventRecord => e.id == event_id)
    (apply_update_fields name tag details due_date frequency_value
      frequency_unit last_done now)
    (fun x hx => hx) s.events old hold
  unfold update_event
  rw [hold]
  simp only []
  rw [hfu]
  rw [if_neg (by simp)]
  rw [if_neg hsome]
  simp only [get_event]
  rw [hget]

theorem bad_unit_false (frequency_unit : Option String)
    (hfu : ∀ u, frequency_unit = some u → u ∈ FREQUENCY_UNITS) :
    bad_unit frequency_unit = false := by
  cases frequency_unit with
  | none => rfl
  | some u =>
    simp only [bad_unit, decide_eq_false_iff_not, Decidable.not_not]
    exact hfu u rfl

/-- C6: a no-op update (no field supplied) on an existing event returns the
stored record unchanged without touching the store or bumping `updated_at`;
when at least one field is supplied (and a supplied unit is valid), exactly
the supplied fields plus `updated_at` change while every omitted field keeps
its prior value, with an empty-or-whitespace `tag`/`details` string clearing
the field to `NULL`; updating a nonexistent id fails with `notFound`. -/
theorem claim_C6 (s : Store) (event_id : Int) (old : EventRecord) (now : Int)
    (name tag details : Option String) (due_date : Option Date)
    (frequency_value : Option Int) (frequency_unit : Option String)
    (last_done : Option Date)
    (hold : get_event event_id s = some old) :
    (name = none → tag = none → details = none → due_date = none →
     frequency_value = none → frequency_unit = none → last_done = none →
       update_event event_id name tag details due_date frequency_value
         frequency_unit last_done now s = .ok (s, old)) ∧
    ((∀ u, frequency_unit = some u → u ∈ FREQUENCY_UNITS) →
     ¬ (name = none ∧ tag = none ∧ details = none ∧ due_date = none ∧
        frequency_value = none ∧ frequency_unit = none ∧ last_done = none) →
     ∃ s' r,
       update_event event_id name tag details due_date frequency_value
         frequency_unit last_done now s = .ok (s', r) ∧
       r.updated_at = now ∧ r.created_at = old.created_at ∧ r.id = old.id ∧
       (name = none → r.name = old.name) ∧
       (∀ n, name = some n → r.name = n.trim) ∧
       (tag = none → r.tag = old.tag) ∧
       (∀ t, tag = some t → t.trim = "" → r.tag = none) ∧
       (∀ t, tag = some t → t.trim ≠ "" → r.tag = some t.trim) ∧
       (details = none → r.details = old.details) ∧
       (∀ t, details = some t → t.trim = "" → r.details = none) ∧
       (∀ t, details = some t → t.trim ≠ "" → r.details = some t.trim) ∧
       (due_date = none → r.due_date = old.due_date) ∧
       (∀ d, due_date = some d → r.due_date = d) ∧
       (frequency_value = none → r.frequency_value = old.frequency_value) ∧
       (∀ x, frequency_value = some x → r.frequency_value = x) ∧
       (frequency_unit = none → r.frequency_unit = old.frequency_unit) ∧
       (∀ x, frequency_unit = some x → r.frequency_unit = x) ∧
       (last_done = none → r.last_done = old.last_done) ∧
       (∀ d, last_done = some d → r.last_done = some d) ∧
       get_event event_id s' = some r ∧
       s'.history = s.history ∧
       (∀ e ∈ s.events, e.id ≠ event_id → e ∈ s'.events)) ∧
    (∀ s2 : Store, get_event event_id s2 = none →
       update_event event_id name tag details due_date frequency_value
         frequency_unit last_done now s2 = .error .notFound) := by
  refine ⟨?_, ?_, ?_⟩
  · intro h1 h2 h3 h4 h5 h6 h7
    subst h1; subst h2; subst h3; subst h4; subst h5; subst h6; subst h7
    unfold update_event
    rw [hold]
    simp [bad_unit]
  · intro hfu hsome
    refine ⟨_, _,
      update_event_some_eq s event_id old name tag details due_date
        frequency_value frequency_unit last_done now hold
        (bad_unit_false frequency_unit hfu) hsome,
      rfl, rfl, rfl,
      fun h => by subst h; rfl,
      fun n h => by subst h; rfl,
      fun h => by subst h; rfl,
      fun t h ht => by subst h; simp [apply_update_fields, ht],
      fun t h ht => by subst h; simp [apply_update_fields, ht],
      fun h => by subst h; rfl,
      fun t h ht => by subst h; simp [apply_update_fields, ht],
      fun t h ht => by subst h; simp [apply_update_fields, ht],
      fun h => by subst h; rfl,
      fun d h => by subst h; rfl,
      fun h => by subst h; rfl,
      fun x h => by subst h; rfl,
      fun h => by subst h; rfl,
      fun x h => by subst h; rfl,
      fun h => by subst h; rfl,
      fun d h => by subst h; rfl,
      find?_map_ite (fun e : EventRecord => e.id == event_id)
        (apply_update_fields name tag details due_date frequency_value
          frequency_unit last_done now)
        (fun x hx => hx) s.events old hold,
      rfl,
      ?_⟩
    intro e he hne
    refine List.mem_map.mpr ⟨e, he, ?_⟩
    simp [hne]
  · intro s2 h2
    unfold update_event
    rw [h2]

theorem claim_C6_witness :
    update_event 1 none none none none none none none 9 store0 = .ok (store0, ev0) :=
  (claim_C6 store0 1 ev0 9 none none none none none none none
    (by decide)).1 rfl rfl rfl rfl rfl rfl rfl

theorem find?_append_singleton_ne_none {α : Type} (p : α → Bool) (l : List α)
    (r : α) (hr : p r = true) : (l ++ [r]).find? p ≠ none := by
  induction l with
  | nil =>
    simp only [List.nil_append]
    rw [List.find?_cons_of_pos _ hr]
    simp
  | cons x xs ih =>
    rw [List.cons_append]
    cases hx : p x with
    | true =>
      rw [List.find?_cons_of_pos _ hx]
      simp
    | false =>
      rw [List.find?_cons_of_neg _ (by simp [hx])]
      exact ih

/-- C9: `create` and `update` (on an existing event) fail with the
invalid-unit error whenever the supplied frequency unit is outside
`{days, weeks, months, years}`, and `addCadence` fails for such a unit; for a
unit inside the whitelist none of the three operations raises a unit error.
An error return leaves the store untouched: the model only produces a new
store through an `ok` result. -/
theorem claim_C9 (s : Store) (event_id : Int) (ev : EventRecord) (u : String)
    (hev : get_event event_id s = some ev) :
    (u ∉ FREQUENCY_UNITS →
       (∀ (nm : String) (tg dt : Option String) (dd : Date) (fv now : Int),
          create_event nm tg dt dd fv u now s = .error .invalidUnit) ∧
       (∀ now : Int,
          update_event event_id none none none none none (some u) none now s =
            .error .invalidUnit) ∧
       (∀ (b : Date) (v : Int), add_frequency b v u = none)) ∧
    (u ∈ FREQUENCY_UNITS →
       (∀ (nm : String) (tg dt : Option String) (dd : Date) (fv now : Int),
          ∃ s' r, create_event nm tg dt dd fv u now s = .ok (s', r)) ∧
       (∀ now : Int, ∃ s' r,
          update_event event_id none none none none none (some u) none now s =
            .ok (s', r)) ∧
       (∀ (b : Date) (v : Int), ∃ d, add_frequency b v u = some d)) := by
  constructor
  · intro hnu
    refine ⟨?_, ?_, ?_⟩
    · intro nm tg dt dd fv now
      unfold create_event
      rw [if_neg hnu]
    · intro now
      unfold update_event
      rw [hev]
      simp only []
      rw [if_pos (by simp [bad_unit, hnu])]
    · intro b v
      have h1 : u ≠ "days" := fun h => hnu (by rw [h]; simp [FREQUENCY_UNITS])
      have h2 : u ≠ "weeks" := fun h => hnu (by rw [h]; simp [FREQUENCY_UNITS])
      have h3 : u ≠ "months" := fun h => hnu (by rw [h]; simp [FREQUENCY_UNITS])
      have h4 : u ≠ "years" := fun h => hnu (by rw [h]; simp [FREQUENCY_UNITS])
      simp [add_frequency, h1, h2, h3, h4]
  · intro hu
    refine ⟨?_, ?_, fun b v => add_frequency_isSome b v u hu⟩
    · intro nm tg dt dd fv now
      unfold create_event
      rw [if_pos hu]
      simp only [get_event]
      split
      · exact ⟨_, _, rfl⟩
      · rename_i hnone
        exact absurd hnone (find?_append_singleton_ne_none _ _ _ (by simp))
    · intro now
      have hget := find?_map_ite (fun e : EventRecord => e.id == event_id)
        (apply_update_fields none none none none none (some u) none now)
        (fun x hx => hx) s.events ev hev
      unfold update_event
      rw [hev]
      simp only []
      rw [if_neg (by simp [bad_unit, hu]), if_neg (by simp)]
      simp only [get_event]
      rw [hget]
      exact ⟨_, _, rfl⟩

theorem claim_C9_witness :
    (∀ (b : Date) (v : Int), add_frequency b v "fortnights" = none) ∧
    (∀ (b : Date) (v : Int), ∃ d, add_frequency b v "weeks" = some d) :=
  ⟨((claim_C9 store0 1 ev0 "fortnights" (by decide)).1 (by decide)).2.2,
   ((claim_C9 store0 1 ev0 "weeks" (by decide)).2 (by decide)).2.2⟩

/-- The `frontend/constants.FREQUENCY_UNIT_DAY_MAP.get(unit, 30)` lookup:
days 1, weeks 7, months 30, years 365, anything else the default 30. -/
def frequency_unit_day_map (u : String) : Int :=
  if u = "days" then 1
  else if u = "weeks" then 7
  else if u = "months" then 30
  else if u = "years" then 365
  else 30

/-- Lowercase a string character-wise (`unit.lower()`); `Char.toLower` folds
the ASCII range, which covers the unit names compared here. -/
def lower_string (s : String) : String := ⟨s.data.map Char.toLower⟩

/-- Models `frontend/utils._estimate_frequency_days` (lines 11-13). -/
def estimate_frequency_days (value : Int) (unit : String) : Int :=
  max 1 (value * frequency_unit_day_map (lower_string unit))

/-- The cycle start computed by `frontend/utils._event_cycle_length_days`
(lines 26-28): `event.last_done` when present and strictly before the due
date, else the due date minus one cadence. -/
def cycle_start (e : EventRecord) : Option Date :=
  match e.last_done with
  | some ld =>
    if Date.lt ld e.due_date then some ld
    else add_frequency e.due_date (-e.frequency_value) e.frequency_unit
  | none => add_frequency e.due_date (-e.frequency_value) e.frequency_unit

/-- Models `frontend/utils._event_cycle_length_days` (lines 24-32); `none`
models the `ValueError` propagating out of `add_frequency` for an invalid
unit. -/
def event_cycle_length_days (e : EventRecord) : Option Int :=
  match cycle_start e with
  | none => none
  | some start =>
    let span := toDays e.due_date - toDays start
    if span ≤ 0 then
      some (max 1 (estimate_frequency_days e.frequency_value e.frequency_unit))
    else some span

/-- Models `frontend/utils._calculate_overdue_percentage` (lines 35-43).  The
outer `Option` is exception propagation from `add_frequency`; the inner one is
the function's `None` result.  Python computes the percentage in binary
floating point and rounds half-to-even via `int(round(...))`; the model uses
the exact rational value with `round` (half-up).  Both roundings agree on
every property stated in the claims (sign, clamping and the concrete values
used below). -/
def calculate_overdue_percentage (e : EventRecord) (today : Date) :
    Option (Option Int) :=
  if Date.le today e.due_date then some none
  else
    match event_cycle_length_days e with
    | none => none
    | some cycle_days =>
      let overdue_days := toDays today - toDays e.due_date
      if overdue_days ≤ 0 then some (some 0)
      else some (some (round ((overdue_days : ℚ) / (cycle_days : ℚ) * 100)))

/-- Models `frontend/utils._calculate_residual_percentage` (lines 46-53),
with the same rounding conventions as `calculate_overdue_percentage`. -/
def calculate_residual_percentage (e : EventRecord) (today : Date) :
    Option (Option Int) :=
  if Date.le e.due_date today then some none
  else
    match event_cycle_length_days e with
    | none => none
    | some cycle_days =>
      let remaining_days := toDays e.due_date - toDays today
      let percent := (remaining_days : ℚ) / (cycle_days : ℚ) * 100
      let percent2 := max 0 (min 100 percent)
      some (some (round percent2))

theorem max_one_absorb (a : Int) : max 1 (max 1 a) = max 1 a := by
  simp only [max_def]
  split_ifs <;> omega

theorem cycle_length_pos (e : EventRecord)
    (hu : e.frequency_unit ∈ FREQUENCY_UNITS) :
    ∃ start c, cycle_start e = some start ∧
      event_cycle_length_days e = some c ∧ 1 ≤ c ∧
      (0 < toDays e.due_date - toDays start →
        c = toDays e.due_date - toDays start) ∧
      (toDays e.due_date - toDays start ≤ 0 →
        c = max 1 (estimate_frequency_days e.frequency_value e.frequency_unit)) := by
  have hstart : ∃ start, cycle_start e = some start := by
    unfold cycle_start
    cases e.last_done with
    | none => exact add_frequency_isSome _ _ _ hu
    | some ld =>
      simp only []
      by_cases hlt : Date.lt ld e.due_date
      · exact ⟨ld, by rw [if_pos hlt]⟩
      · rw [if_neg hlt]
        exact add_frequency_isSome _ _ _ hu
  obtain ⟨start, hs⟩ := hstart
  by_cases hsp : toDays e.due_date - toDays start ≤ 0
  · refine ⟨start, max 1 (estimate_frequency_days e.frequency_value e.frequency_unit),
      hs, ?_, le_max_left 1 _, fun h => absurd hsp (by omega), fun _ => rfl⟩
    unfold event_cycle_length_days
    rw [hs]
    simp only []
    rw [if_pos hsp]
  · refine ⟨start, toDays e.due_date - toDays start, hs, ?_, by omega,
      fun _ => rfl, fun h => absurd h hsp⟩
    unfold event_cycle_length_days
    rw [hs]
    simp only []
    rw [if_neg hsp]

/-- C8: for every event carrying a whitelisted frequency unit, the cycle
length is defined and at least 1: it equals the day span from the cycle start
to the due date when that span is positive, and otherwise falls back to
`frequency_value` times the per-unit day estimate (days 1, weeks 7, months 30,
years 365), floored at 1.  In particular the percentage denominators are never
zero. -/
theorem claim_C8 (e : EventRecord) (hu : e.frequency_unit ∈ FREQUENCY_UNITS) :
    ∃ start c, cycle_start e = some start ∧
      event_cycle_length_days e = some c ∧ 1 ≤ c ∧
      (0 < toDays e.due_date - toDays start →
        c = toDays e.due_date - toDays start) ∧
      (toDays e.due_date - toDays start ≤ 0 →
        (e.frequency_unit = "days" → c = max 1 (e.frequency_value * 1)) ∧
        (e.frequency_unit = "weeks" → c = max 1 (e.frequency_value * 7)) ∧
        (e.frequency_unit = "months" → c = max 1 (e.frequency_value * 30)) ∧
        (e.frequency_unit = "years" → c = max 1 (e.frequency_value * 365))) := by
  obtain ⟨start, c, hs, hc, h1c, hpos, hfall⟩ := cycle_length_pos e hu
  refine ⟨start, c, hs, hc, h1c, hpos, fun h => ⟨?_, ?_, ?_, ?_⟩⟩ <;>
    (intro heq
     rw [hfall h, heq]
     simp only [estimate_frequency_days]) <;>
    [rw [show frequency_unit_day_map (lower_string "days") = 1 from by decide];
     rw [show frequency_unit_day_map (lower_string "weeks") = 7 from by decide];
     rw [show frequency_unit_day_map (lower_string "months") = 30 from by decide];
     rw [show frequency_unit_day_map (lower_string "years") = 365 from by decide]] <;>
    exact max_one_absorb _

theorem round_bounds (x : ℚ) (h0 : 0 ≤ x) (h1 : x ≤ 100) :
    0 ≤ round x ∧ round x ≤ 100 := by
  rw [round_eq]
  constructor
  · exact Int.le_floor.mpr (by push_cast; linarith)
  · have hm := Int.floor_mono (show x + 1 / 2 ≤ (100 : ℚ) + 1 / 2 by linarith)
    have h100 : ⌊(100 : ℚ) + 1 / 2⌋ = 100 := by
      rw [Int.floor_eq_iff] <;> norm_num
    omega

/-- C8 witness instantiation data: due in five days, never done. -/
theorem claim_C8_witness :
    ∃ start c, cycle_start ev0 = some start ∧
      event_cycle_length_days ev0 = some c ∧ 1 ≤ c ∧
      (0 < toDays ev0.due_date - toDays start →
        c = toDays ev0.due_date - toDays start) ∧
      (toDays ev0.due_date - toDays start ≤ 0 →
        (ev0.frequency_unit = "days" → c = max 1 (ev0.frequency_value * 1)) ∧
        (ev0.frequency_unit = "weeks" → c = max 1 (ev0.frequency_value * 7)) ∧
        (ev0.frequency_unit = "months" → c = max 1 (ev0.frequency_value * 30)) ∧
        (ev0.frequency_unit = "years" → c = max 1 (ev0.frequency_value * 365))) :=
  claim_C8 ev0 (by decide)

/-- C4: with a whitelisted unit, `overduePercentage` returns null when
`due_date >= today` and otherwise a non-negative integer; `residualPercentage`
returns null when `due_date <= today` and otherwise an integer in `[0, 100]`.
In particular both return null when `due_date = today`. -/
theorem claim_C4 (e : EventRecord) (today : Date)
    (hu : e.frequency_unit ∈ FREQUENCY_UNITS) :
    (Date.le today e.due_date → calculate_overdue_percentage e today = some none) ∧
    (Date.lt e.due_date today →
       ∃ p, calculate_overdue_percentage e today = some (some p) ∧ 0 ≤ p) ∧
    (Date.le e.due_date today → calculate_residual_percentage e today = some none) ∧
    (Date.lt today e.due_date →
       ∃ p, calculate_residual_percentage e today = some (some p) ∧
         0 ≤ p ∧ p ≤ 100) := by
  refine ⟨?_, ?_, ?_, ?_⟩
  · intro h
    unfold calculate_overdue_percentage
    rw [if_pos h]
  · intro h
    have hnle : ¬ Date.le today e.due_date := by
      unfold Date.le
      unfold Date.lt at h
      omega
    unfold calculate_overdue_percentage
    rw [if_neg hnle]
    obtain ⟨start, c, hs, hc, h1c, -, -⟩ := cycle_length_pos e hu
    rw [hc]
    simp only []
    have hod : ¬ (toDays today - toDays e.due_date ≤ 0) := by
      unfold Date.lt at h
      omega
    rw [if_neg hod]
    refine ⟨_, rfl, ?_⟩
    have hxq : (0 : ℚ) ≤
        ((toDays today - toDays e.due_date : Int) : ℚ) / ((c : Int) : ℚ) * 100 := by
      apply mul_nonneg
      · apply div_nonneg
        · exact_mod_cast (by omega : (0 : Int) ≤ toDays today - toDays e.due_date)
        · exact_mod_cast (by omega : (0 : Int) ≤ c)
      · norm_num
    rw [round_eq]
    exact Int.le_floor.mpr (by push_cast at hxq ⊢; linarith)
  · intro h
    unfold calculate_residual_percentage
    rw [if_pos h]
  · intro h
    have hnle : ¬ Date.le e.due_date today := by
      unfold Date.le
      unfold Date.lt at h
      omega
    unfold calculate_residual_percentage
    rw [if_neg hnle]
    obtain ⟨start, c, hs, hc, h1c, -, -⟩ := cycle_length_pos e hu
    rw [hc]
    simp only []
    refine ⟨_, rfl, ?_, ?_⟩ <;>
      (have hb := round_bounds
        (max 0 (min 100 (((toDays e.due_date - toDays today : Int) : ℚ) / ((c : Int) : ℚ) * 100)))
        (le_max_left _ _) (max_le (by norm_num) (min_le_left _ _))
       omega)

/-- Concrete event used by the C4 and C10 witnesses: a monthly event due
2024-01-31, last done 2024-01-01 (cycle length 30 days). -/
def evC10 : EventRecord :=
  { id := 2, name := "mow", tag := none, details := none, frequency_value := 1,
    frequency_unit := "months", due_date := ⟨2024, 1, 31⟩,
    last_done := some ⟨2024, 1, 1⟩, created_at := 0, updated_at := 0 }

/-- Concrete date 60 days after `evC10`'s due date. -/
def dMar31 : Date := ⟨2024, 3, 31⟩

theorem claim_C4_witness :
    (Date.le dMar31 evC10.due_date →
       calculate_overdue_percentage evC10 dMar31 = some none) ∧
    (Date.lt evC10.due_date dMar31 →
       ∃ p, calculate_overdue_percentage evC10 dMar31 = some (some p) ∧ 0 ≤ p) ∧
    (Date.le evC10.due_date dMar31 →
       calculate_residual_percentage evC10 dMar31 = some none) ∧
    (Date.lt dMar31 evC10.due_date →
       ∃ p, calculate_residual_percentage evC10 dMar31 = some (some p) ∧
         0 ≤ p ∧ p ≤ 100) :=
  claim_C4 evC10 dMar31 (by decide)

/-- C10: `overduePercentage` is not clamped — on the concrete event `evC10`
(30-day cycle) a date 60 days past due yields 200, strictly above 100 — while
`residualPercentage` is clamped and can never exceed 100 for any event and
date. -/
theorem claim_C10 :
    (calculate_overdue_percentage evC10 dMar31 = some (some 200) ∧
      (100 : Int) < 200) ∧
    (∀ (e : EventRecord) (t : Date),
       match calculate_residual_percentage e t with
       | some (some p) => p ≤ 100
       | _ => True) := by
  constructor
  · refine ⟨?_, by omega⟩
    have hc : event_cycle_length_days evC10 = some 30 := by decide
    unfold calculate_overdue_percentage
    rw [if_neg (by decide), hc]
    simp only []
    rw [if_neg (by decide)]
    have h60 : toDays dMar31 - toDays evC10.due_date = 60 := by decide
    rw [h60]
    have hcast : ((60 : Int) : ℚ) / ((30 : Int) : ℚ) * 100 = ((200 : Int) : ℚ) := by
      push_cast
      norm_num
    rw [hcast, round_intCast]
  · intro e t
    cases hres : calculate_residual_percentage e t with
    | none => simp
    | some o =>
      cases o with
      | none => simp
      | some p =>
        simp only []
        unfold calculate_residual_percentage at hres
        by_cases hle : Date.le e.due_date t
        · rw [if_pos hle] at hres
          simp at hres
        · rw [if_neg hle] at hres
          cases hcy : event_cycle_length_days e with
          | none => rw [hcy] at hres; simp at hres
          | some c =>
            rw [hcy] at hres
            simp only [Option.some.injEq] at hres
            have hb := round_bounds
              (max 0 (min 100
                (((toDays e.due_date - toDays t : Int) : ℚ) / ((c : Int) : ℚ) * 100)))
              (le_max_left _ _) (max_le (by norm_num) (min_le_left _ _))
            omega

theorem claim_C10_witness :
    (match calculate_residual_percentage evC10 dMar31 with
     | some (some p) => p ≤ 100
     | _ => True) :=
  claim_C10.2 evC10 dMar31

/-- Lexicographic (year, month, day) order on dates: this is exactly the order
of their ISO-8601 `YYYY-MM-DD` strings, which is what SQLite's `ORDER BY` on
the stored date columns compares. -/
def date_lex_lt (x y : Date) : Prop :=
  x.year < y.year ∨
    (x.year = y.year ∧ (x.month < y.month ∨ (x.month = y.month ∧ x.day < y.day)))

instance (x y : Date) : Decidable (date_lex_lt x y) := by
  unfold date_lex_lt; infer_instance

/-- Boolean strict ISO-string order on dates. -/
def date_lt_b (x y : Date) : Bool := decide (date_lex_lt x y)

/-- Boolean non-strict ISO-string order on dates. -/
def date_le_b (x y : Date) : Bool := date_lt_b x y || decide (x = y)

/-- The comparator realised by `list_events`' SQL
`ORDER BY due_date ASC, name COLLATE NOCASE ASC` (NOCASE folds ASCII only,
as `lower_string` does). -/
def event_le (a b : EventRecord) : Bool :=
  date_lt_b a.due_date b.due_date ||
    (decide (a.due_date = b.due_date) &&
      str_le (lower_string a.name) (lower_string b.name))

/-- The comparator realised by `_fetch_history_for_event_ids`' SQL
`ORDER BY ... action_date DESC` within one event's rows. -/
def hist_ge (h1 h2 : HistoryRecord) : Bool :=
  date_le_b h2.action_date h1.action_date

/-- Models `store.list_events` (lines 149-159): all event rows ordered by the
SQL clause above. -/
def list_events (s : Store) : List EventRecord :=
  s.events.mergeSort event_le

/-- Models `store._fetch_history_for_event_ids` (lines 357-380) as the mapping
it produces: for each requested event id, its own history rows in
`action_date` descending order, capped at `limit_per_event` per event (the
source sorts globally by `(event_id, action_date DESC)` and then fills each
bucket until the cap, which yields exactly this per-event result); ids that
were not requested map to the dict default `[]`. -/
def fetch_history_for_event_ids (event_ids : List Int) (limit_per_event : Nat)
    (s : Store) (eid : Int) : List HistoryRecord :=
  if eid ∈ event_ids then
    ((s.history.filter (fun h => h.event_id == eid)).mergeSort hist_ge).take
      limit_per_event
  else []

/-- Models `store.list_events_with_history` (lines 383-391). -/
def list_events_with_history (history_limit : Nat) (s : Store) :
    List (EventRecord × List HistoryRecord) :=
  let events := list_events s
  let event_ids := events.map (fun e => e.id)
  events.map fun e => (e, fetch_history_for_event_ids event_ids history_limit s e.id)

theorem date_lex_lt_trans (x y z : Date) (h1 : date_lex_lt x y)
    (h2 : date_lex_lt y z) : date_lex_lt x z := by
  unfold date_lex_lt at *
  omega

theorem date_eq_of_fields (x y : Date) (h : x.year = y.year ∧ x.month = y.month ∧
    x.day = y.day) : x = y := by
  obtain ⟨x1, x2, x3⟩ := x
  obtain ⟨y1, y2, y3⟩ := y
  simp only [Date.year_mk, Date.month_mk, Date.day_mk] at h
  simp only [Date.mk.injEq]
  exact h

theorem date_lex_trichotomy (x y : Date) :
    date_lex_lt x y ∨ date_lex_lt y x ∨ x = y := by
  have h : date_lex_lt x y ∨ date_lex_lt y x ∨
      (x.year = y.year ∧ x.month = y.month ∧ x.day = y.day) := by
    unfold date_lex_lt
    omega
  rcases h with h | h | h
  · exact Or.inl h
  · exact Or.inr (Or.inl h)
  · exact Or.inr (Or.inr (date_eq_of_fields x y h))

theorem chars_le_total (as : List Char) :
    ∀ bs, (chars_le as bs || chars_le bs as) = true := by
  induction as with
  | nil => intro bs; cases bs <;> simp [chars_le]
  | cons a as ih =>
    intro bs
    cases bs with
    | nil => simp [chars_le]
    | cons b bs =>
      simp only [chars_le]
      rcases lt_trichotomy a b with h | h | h
      · simp [h]
      · subst h
        simpa [lt_irrefl] using ih bs
      · simp [h, lt_asymm h]

theorem chars_le_trans : ∀ (as bs cs : List Char), chars_le as bs = true →
    chars_le bs cs = true → chars_le as cs = true := by
  intro as
  induction as with
  | nil => intro bs cs h1 h2; simp [chars_le]
  | cons a as ih =>
    intro bs cs h1 h2
    cases bs with
    | nil => simp [chars_le] at h1
    | cons b bs =>
      cases cs with
      | nil => simp [chars_le] at h2
      | cons c cs =>
        simp only [chars_le] at h1 h2 ⊢
        rcases lt_trichotomy a b with hab | hab | hab
        · rcases lt_trichotomy b c with hbc | hbc | hbc
          · simp [lt_trans hab hbc]
          · subst hbc
            simp [hab]
          · simp [hbc, lt_asymm hbc] at h2
        · subst hab
          simp only [lt_irrefl, if_false] at h1
          rcases lt_trichotomy a c with hac | hac | hac
          · simp [hac]
          · subst hac
            simp only [lt_irrefl, if_false] at h2 ⊢
            exact ih bs cs h1 h2
          · simp [hac, lt_asymm hac] at h2
        · simp [hab, lt_asymm hab] at h1

theorem event_le_total (a b : EventRecord) :
    (event_le a b || event_le b a) = true := by
  simp only [event_le, date_lt_b, str_le, Bool.or_eq_true, Bool.and_eq_true,
    decide_eq_true_iff]
  rcases date_lex_trichotomy a.due_date b.due_date with h | h | h
  · exact Or.inl (Or.inl h)
  · exact Or.inr (Or.inl h)
  · have hs := chars_le_total (lower_string a.name).data (lower_string b.name).data
    simp only [Bool.or_eq_true] at hs
    rcases hs with hs | hs
    · exact Or.inl (Or.inr ⟨h, hs⟩)
    · exact Or.inr (Or.inr ⟨h.symm, hs⟩)

theorem event_le_trans (a b c : EventRecord) (h1 : event_le a b = true)
    (h2 : event_le b c = true) : event_le a c = true := by
  simp only [event_le, date_lt_b, str_le, Bool.or_eq_true, Bool.and_eq_true,
    decide_eq_true_iff] at h1 h2 ⊢
  rcases h1 with h1 | ⟨h1e, h1s⟩ <;> rcases h2 with h2 | ⟨h2e, h2s⟩
  · exact Or.inl (date_lex_lt_trans _ _ _ h1 h2)
  · exact Or.inl (h2e ▸ h1)
  · exact Or.inl (h1e ▸ h2)
  · exact Or.inr ⟨h1e.trans h2e, chars_le_trans _ _ _ h1s h2s⟩

theorem date_le_b_total (x y : Date) : (date_le_b x y || date_le_b y x) = true := by
  simp only [date_le_b, date_lt_b, Bool.or_eq_true, decide_eq_true_iff]
  rcases date_lex_trichotomy x y with h | h | h
  · exact Or.inl (Or.inl h)
  · exact Or.inr (Or.inl h)
  · exact Or.inl (Or.inr h)

theorem date_le_b_trans (x y z : Date) (h1 : date_le_b x y = true)
    (h2 : date_le_b y z = true) : date_le_b x z = true := by
  simp only [date_le_b, date_lt_b, Bool.or_eq_true, decide_eq_true_iff] at h1 h2 ⊢
  rcases h1 with h1 | h1 <;> rcases h2 with h2 | h2
  · exact Or.inl (date_lex_lt_trans _ _ _ h1 h2)
  · exact Or.inl (h2 ▸ h1)
  · exact Or.inl (h1 ▸ h2)
  · exact Or.inr (h1.trans h2)

theorem hist_ge_total (a b : HistoryRecord) :
    (hist_ge a b || hist_ge b a) = true := by
  unfold hist_ge
  exact date_le_b_total b.action_date a.action_date

theorem hist_ge_trans (a b c : HistoryRecord) (h1 : hist_ge a b = true)
    (h2 : hist_ge b c = true) : hist_ge a c = true := by
  unfold hist_ge at *
  exact date_le_b_trans _ _ _ h2 h1

theorem map_fst_pair {α β : Type} (l : List α) (f : α → β) :
    (l.map fun e => (e, f e)).map Prod.fst = l := by
  induction l with
  | nil => rfl
  | cons x xs ih => simp [ih]

/-- C7: `listWithHistory(N)` returns exactly the stored events (as a
permutation), ordered by due date ascending with ties broken by
case-insensitively compared names ascending, and pairs each event with at most
`N` of its own history entries — a per-event cap — ordered by `action_date`
descending. -/
theorem claim_C7 (s : Store) (N : Nat) :
    ((list_events_with_history N s).map Prod.fst).Perm s.events ∧
    ((list_events_with_history N s).map Prod.fst).Pairwise
      (fun a b => event_le a b = true) ∧
    ∀ p ∈ list_events_with_history N s,
      p.2.length ≤ N ∧
      p.2.Pairwise (fun h1 h2 => hist_ge h1 h2 = true) ∧
      ∀ h ∈ p.2, h.event_id = p.1.id := by
  have hmap : (list_events_with_history N s).map Prod.fst = list_events s := by
    unfold list_events_with_history
    exact map_fst_pair _ _
  refine ⟨?_, ?_, ?_⟩
  · rw [hmap]
    exact List.mergeSort_perm s.events event_le
  · rw [hmap]
    exact List.sorted_mergeSort event_le_trans event_le_total s.events
  · intro p hp
    unfold list_events_with_history at hp
    simp only [List.mem_map] at hp
    obtain ⟨e, he, rfl⟩ := hp
    have hin : e.id ∈ (list_events s).map (fun e => e.id) :=
      List.mem_map_of_mem _ he
    refine ⟨?_, ?_, ?_⟩
    · unfold fetch_history_for_event_ids
      rw [if_pos hin]
      exact List.length_take_le _ _
    · unfold fetch_history_for_event_ids
      rw [if_pos hin]
      exact List.Pairwise.sublist (List.take_sublist _ _)
        (List.sorted_mergeSort hist_ge_trans hist_ge_total _)
    · intro h hh
      unfold fetch_history_for_event_ids at hh
      rw [if_pos hin] at hh
      have h1 := List.mem_of_mem_take hh
      have h2 := ((List.mergeSort_perm _ _).mem_iff).mp h1
      have h3 := List.mem_filter.mp h2
      simpa using h3.2

theorem claim_C7_witness :
    ((list_events_with_history 1 store0).map Prod.fst).Perm store0.events :=
  (claim_C7 store0 1).1
